import Mathlib

/-!
Verification of the breathing-log aggregation pipeline.

The pipeline loads raw practice records (date, minutes, sessions, weekday),
aggregates them per calendar day, densifies the result to a contiguous
daily sequence (filling missing days with zeros), and derives cumulative
sums, trailing 3-day moving averages, a practice streak column, per-weekday
totals and a participation percentage.

Dates are modelled as natural numbers (day ordinals): calendar dates at day
granularity are order-isomorphic to integers, and only differences and
ranges of dates matter to the pipeline.  Minutes and session counts are
modelled as rationals, which the numeric aggregation (sums, means,
percentages) is exact over.
-/

namespace Breathing

/-- A raw record as stored in the `daily_breathing` table: a calendar date
(day ordinal), its logged minutes, session count, and a weekday label. -/
structure RawRecord where
  date : Nat
  total_minutes : Rat
  sessions : Rat
  weekday : String
deriving DecidableEq, Repr

/-- One row of the dense daily table produced by aggregation + reindexing:
the per-date sums of minutes and sessions (0 where no record exists). -/
structure DailyRow where
  date : Nat
  total_minutes : Rat
  sessions : Rat
deriving DecidableEq, Repr

/-- `daily['date'].min()`: least date of a record set (0 on the empty set,
where the source leaves it undefined). -/
def minDate : List RawRecord → Nat
  | [] => 0
  | r :: rs => rs.foldl (fun m x => min m x.date) r.date

/-- `daily['date'].max()`: greatest date of a record set. -/
def maxDate : List RawRecord → Nat
  | [] => 0
  | r :: rs => rs.foldl (fun m x => max m x.date) r.date

/-- `raw.groupby(date).agg(total_minutes=sum)` read at one date: the sum of
`total_minutes` over the records of that date. -/
def aggMinutes (rs : List RawRecord) (d : Nat) : Rat :=
  ((rs.filter (fun r => r.date = d)).map (fun r => r.total_minutes)).sum

/-- `raw.groupby(date).agg(sessions=sum)` read at one date. -/
def aggSessions (rs : List RawRecord) (d : Nat) : Rat :=
  ((rs.filter (fun r => r.date = d)).map (fun r => r.sessions)).sum

/-- `pd.date_range(lo, hi)`: every day from `lo` to `hi` inclusive, ascending. -/
def denseDates (lo hi : Nat) : List Nat :=
  (List.range (hi - lo + 1)).map (fun i => lo + i)

/-- Error raised when the record source yields zero records: the
densification range `date_range(min, max)` is undefined there and the
pipeline halts before producing any row. -/
inductive PipelineError
  | emptySource
deriving DecidableEq, Repr

/-- `daily.set_index('date').reindex(all_dates, fill_value=0)`: one row per
date of the inclusive range, carrying the per-date sums (0 for dates with
no record, since the filter is empty there). -/
def denseRows (rs : List RawRecord) : List DailyRow :=
  (denseDates (minDate rs) (maxDate rs)).map
    (fun d => ⟨d, aggMinutes rs d, aggSessions rs d⟩)

/-- The aggregate-then-densify front of the pipeline: fails on an empty
source (no date range), otherwise yields the dense daily table. -/
def densify (rs : List RawRecord) : Except PipelineError (List DailyRow) :=
  match rs with
  | [] => .error .emptySource
  | _ :: _ => .ok (denseRows rs)

/-- `Series.cumsum()` with the running total started at `acc`. -/
def cumsumFrom (acc : Rat) : List Rat → List Rat
  | [] => []
  | x :: xs => (acc + x) :: cumsumFrom (acc + x) xs

/-- `Series.cumsum()`: inclusive running totals. -/
def cumsum (xs : List Rat) : List Rat := cumsumFrom 0 xs

/-- `daily['cumulative_minutes']` column. -/
def cumulative_minutes (rows : List DailyRow) : List Rat :=
  cumsum (rows.map (fun r => r.total_minutes))

/-- `daily['cumulative_sessions']` column. -/
def cumulative_sessions (rows : List DailyRow) : List Rat :=
  cumsum (rows.map (fun r => r.sessions))

/-- `Series.rolling(w, min_periods=1).mean()`: at index `i` the mean of the
trailing window of the last `min (i+1) w` values ending at `i`. -/
def rollingMean (w : Nat) (xs : List Rat) : List Rat :=
  (List.range xs.length).map (fun i =>
    let lo := i + 1 - w
    let win := (xs.drop lo).take (i + 1 - lo)
    win.sum / (win.length : Rat))

/-- `daily['minutes_ma']`: 3-day trailing moving average of minutes. -/
def minutes_ma (rows : List DailyRow) : List Rat :=
  rollingMean 3 (rows.map (fun r => r.total_minutes))

/-- `daily['sessions_ma']`: 3-day trailing moving average of sessions. -/
def sessions_ma (rows : List DailyRow) : List Rat :=
  rollingMean 3 (rows.map (fun r => r.sessions))

/-- The streak loop with the running `current_streak` value: increment on a
positive-minutes day, reset to 0 otherwise, appending each value. -/
def streaksAux (cur : Nat) : List Rat → List Nat
  | [] => []
  | m :: ms =>
    if 0 < m then (cur + 1) :: streaksAux (cur + 1) ms
    else 0 :: streaksAux 0 ms

/-- `daily['streak']`: the streak column over the dense table, scanning
`total_minutes` left to right with `current_streak = 0` initially. -/
def streaks (rows : List DailyRow) : List Nat :=
  streaksAux 0 (rows.map (fun r => r.total_minutes))

/-- `weekday_order`: the canonical weekday names, Monday first. -/
def weekday_order : List String :=
  ["Monday", "Tuesday", "Wednesday", "Thursday", "Friday", "Saturday", "Sunday"]

/-- `raw.groupby('weekday')['total_minutes'].sum().reindex(weekday_order,
fill_value=0)`: for each canonical name, the summed minutes of the raw
records carrying it (reindexing drops any non-canonical group and fills
absent names with 0, which the per-name filtered sum captures). -/
def weekday_minutes (rs : List RawRecord) : List Rat :=
  weekday_order.map (fun w =>
    ((rs.filter (fun r => r.weekday = w)).map (fun r => r.total_minutes)).sum)

/-- `raw.groupby('weekday')['sessions'].sum().reindex(weekday_order,
fill_value=0)`. -/
def weekday_sessions (rs : List RawRecord) : List Rat :=
  weekday_order.map (fun w =>
    ((rs.filter (fun r => r.weekday = w)).map (fun r => r.sessions)).sum)

/-- `(daily['total_minutes'] > 0).sum()`: how many dense rows have positive
minutes. -/
def days_practiced (rows : List DailyRow) : Nat :=
  (rows.filter (fun r => 0 < r.total_minutes)).length

/-- `(days_practiced / total_days) * 100` with `total_days = len(daily)`. -/
def participation_pct (rows : List DailyRow) : Rat :=
  ((days_practiced rows : Rat) / (rows.length : Rat)) * 100

/-- The two-record scenario of the spec: 10 minutes / 1 session on day 0
(a Monday) and 20 minutes / 2 sessions on day 2 (a Wednesday). -/
def exampleRecords : List RawRecord :=
  [⟨0, 10, 1, "Monday"⟩, ⟨2, 20, 2, "Wednesday"⟩]

/-- A record reporting negative minutes, as in the spec's scenario. -/
def negRecord : RawRecord := ⟨0, -5, 1, "Monday"⟩

/-- A record whose weekday label is not one of the canonical seven. -/
def badWeekdayRecord : RawRecord := ⟨1, 3, 1, "Funday"⟩

/-! ### Helper lemmas: date range of a record set -/

theorem foldl_min_le_init (t : List RawRecord) (a : Nat) :
    t.foldl (fun m x => min m x.date) a ≤ a := by
  induction t generalizing a with
  | nil => simp
  | cons x t ih => exact le_trans (ih (min a x.date)) (min_le_left _ _)

theorem foldl_min_le_mem (t : List RawRecord) (a : Nat) (x : RawRecord) (hx : x ∈ t) :
    t.foldl (fun m x => min m x.date) a ≤ x.date := by
  induction t generalizing a with
  | nil => simp at hx
  | cons y t ih =>
    rcases List.mem_cons.mp hx with rfl | hxt
    · exact le_trans (foldl_min_le_init t _) (min_le_right _ _)
    · exact ih _ hxt

theorem init_le_foldl_max (t : List RawRecord) (a : Nat) :
    a ≤ t.foldl (fun m x => max m x.date) a := by
  induction t generalizing a with
  | nil => simp
  | cons x t ih => exact le_trans (le_max_left _ _) (ih (max a x.date))

theorem mem_le_foldl_max (t : List RawRecord) (a : Nat) (x : RawRecord) (hx : x ∈ t) :
    x.date ≤ t.foldl (fun m x => max m x.date) a := by
  induction t generalizing a with
  | nil => simp at hx
  | cons y t ih =>
    rcases List.mem_cons.mp hx with rfl | hxt
    · exact le_trans (le_max_right _ _) (init_le_foldl_max t _)
    · exact ih _ hxt

theorem minDate_le_of_mem {rs : List RawRecord} {r : RawRecord} (hr : r ∈ rs) :
    minDate rs ≤ r.date := by
  cases rs with
  | nil => simp at hr
  | cons h t =>
    rcases List.mem_cons.mp hr with rfl | hrt
    · exact foldl_min_le_init t _
    · exact foldl_min_le_mem t _ _ hrt

theorem le_maxDate_of_mem {rs : List RawRecord} {r : RawRecord} (hr : r ∈ rs) :
    r.date ≤ maxDate rs := by
  cases rs with
  | nil => simp at hr
  | cons h t =>
    rcases List.mem_cons.mp hr with rfl | hrt
    · exact init_le_foldl_max t _
    · exact mem_le_foldl_max t _ _ hrt

/-! ### Helper lemmas: the dense calendar -/

theorem length_denseDates (lo hi : Nat) : (denseDates lo hi).length = hi - lo + 1 := by
  simp [denseDates]

theorem length_denseRows (rs : List RawRecord) :
    (denseRows rs).length = maxDate rs - minDate rs + 1 := by
  simp [denseRows, denseDates]

theorem denseRows_getElem (rs : List RawRecord) (i : Nat)
    (hi : i < (denseRows rs).length) :
    (denseRows rs)[i] =
      ⟨minDate rs + i, aggMinutes rs (minDate rs + i), aggSessions rs (minDate rs + i)⟩ := by
  simp [denseRows, denseDates, List.getElem_map, List.getElem_range]

theorem mem_denseDates (lo hi d : Nat) (h1 : lo ≤ d) (h2 : d ≤ hi) :
    d ∈ denseDates lo hi := by
  simp only [denseDates, List.mem_map, List.mem_range]
  exact ⟨d - lo, by omega, by omega⟩

theorem nodup_denseDates (lo hi : Nat) : (denseDates lo hi).Nodup := by
  refine List.Nodup.map ?_ (List.nodup_range _)
  intro i j hij
  simp only [] at hij
  omega

theorem aggMinutes_eq_zero (rs : List RawRecord) (d : Nat)
    (h : ∀ r ∈ rs, r.date ≠ d) : aggMinutes rs d = 0 := by
  have hf : rs.filter (fun r => r.date = d) = [] :=
    List.filter_eq_nil_iff.mpr (by intro a ha; simpa using h a ha)
  simp [aggMinutes, hf]

theorem aggSessions_eq_zero (rs : List RawRecord) (d : Nat)
    (h : ∀ r ∈ rs, r.date ≠ d) : aggSessions rs d = 0 := by
  have hf : rs.filter (fun r => r.date = d) = [] :=
    List.filter_eq_nil_iff.mpr (by intro a ha; simpa using h a ha)
  simp [aggSessions, hf]

/-- The dense table of the two-record scenario, evaluated: Jan 1 with 10
minutes / 1 session, a zero-filled middle day, Jan 3 with 20 minutes /
2 sessions. -/
theorem denseRows_example :
    denseRows exampleRecords = [⟨0, 10, 1⟩, ⟨1, 0, 0⟩, ⟨2, 20, 2⟩] := by
  norm_num [denseRows, exampleRecords, minDate, maxDate,
    show denseDates 0 2 = [0, 1, 2] from rfl, aggMinutes, aggSessions, List.filter,
    DailyRow.mk.injEq]

/-- C1: for every non-empty raw record set, the densified sequence has
exactly `maxDate - minDate + 1` rows, its dates are `minDate + i` at index
`i` (hence strictly increasing, gap-free and duplicate-free), and any date
carried by no raw record appears with zero minutes and zero sessions. -/
theorem dense_calendar_shape (rs : List RawRecord) (h : rs ≠ []) :
    densify rs = .ok (denseRows rs) ∧
    (denseRows rs).length = maxDate rs - minDate rs + 1 ∧
    (∀ i (hi : i < (denseRows rs).length),
      ((denseRows rs)[i]).date = minDate rs + i) ∧
    (∀ i j (hi : i < (denseRows rs).length) (hj : j < (denseRows rs).length),
      i < j → ((denseRows rs)[i]).date < ((denseRows rs)[j]).date) ∧
    (∀ i (hi : i < (denseRows rs).length),
      (∀ r ∈ rs, r.date ≠ ((denseRows rs)[i]).date) →
      ((denseRows rs)[i]).total_minutes = 0 ∧ ((denseRows rs)[i]).sessions = 0) := by
  refine ⟨?_, length_denseRows rs, ?_, ?_, ?_⟩
  · cases rs with
    | nil => exact absurd rfl h
    | cons r t => rfl
  · intro i hi
    rw [denseRows_getElem rs i hi]
  · intro i j hi hj hij
    rw [denseRows_getElem rs i hi, denseRows_getElem rs j hj]
    simpa using hij
  · intro i hi habs
    rw [denseRows_getElem rs i hi] at habs ⊢
    exact ⟨aggMinutes_eq_zero rs _ habs, aggSessions_eq_zero rs _ habs⟩

/-- C1 witness: the two-record scenario is non-empty and densifies to a
table of `maxDate - minDate + 1` rows. -/
theorem dense_calendar_shape_witness :
    exampleRecords ≠ [] ∧
    (denseRows exampleRecords).length = maxDate exampleRecords - minDate exampleRecords + 1 :=
  ⟨by decide, (dense_calendar_shape exampleRecords (by decide)).2.1⟩

/-- C7: the pipeline fails with `emptySource` exactly when the record
source yields zero records, and then produces no daily row at all. -/
theorem empty_source_fails (rs : List RawRecord) :
    densify rs = .error .emptySource ↔ rs = [] := by
  cases rs with
  | nil => simp [densify]
  | cons r t => simp [densify]

/-- C7 witness: the empty record set makes the pipeline fail. -/
theorem empty_source_fails_witness :
    densify ([] : List RawRecord) = .error .emptySource :=
  (empty_source_fails []).mpr rfl

/-- C6: `days_practiced` counts the positive-minute rows, the
participation percentage is `100 * days_practiced / total_days`, it lies
in `[0, 100]`, and it is 0 when the table is empty. -/
theorem participation_kpi (rows : List DailyRow) :
    days_practiced rows = (rows.filter (fun r => 0 < r.total_minutes)).length ∧
    participation_pct rows = 100 * (days_practiced rows : Rat) / (rows.length : Rat) ∧
    0 ≤ participation_pct rows ∧
    participation_pct rows ≤ 100 ∧
    (rows.length = 0 → participation_pct rows = 0) := by
  refine ⟨rfl, ?_, ?_, ?_, ?_⟩
  · rw [participation_pct, div_mul_eq_mul_div, mul_comm]
  · rw [participation_pct]
    positivity
  · rcases Nat.eq_zero_or_pos rows.length with h0 | hpos
    · simp [participation_pct, h0]
    · have hdp : days_practiced rows ≤ rows.length := List.length_filter_le _ _
      have h1 : (days_practiced rows : Rat) / (rows.length : Rat) ≤ 1 :=
        (div_le_one (by exact_mod_cast hpos)).mpr (by exact_mod_cast hdp)
      calc participation_pct rows
          = (days_practiced rows : Rat) / (rows.length : Rat) * 100 := rfl
        _ ≤ 1 * 100 := by
            exact mul_le_mul_of_nonneg_right h1 (by norm_num)
        _ = 100 := by norm_num
  · intro h0
    simp [participation_pct, h0]

/-- C6 witness: over the three-day dense scenario table, two of three days
are practiced and the participation percentage is 200/3. -/
theorem participation_kpi_witness :
    participation_pct (denseRows exampleRecords) =
      100 * (days_practiced (denseRows exampleRecords) : Rat) /
        ((denseRows exampleRecords).length : Rat) :=
  (participation_kpi (denseRows exampleRecords)).2.1

/-! ### Helper lemmas: cumulative sums -/

theorem length_cumsumFrom (acc : Rat) (xs : List Rat) :
    (cumsumFrom acc xs).length = xs.length := by
  induction xs generalizing acc with
  | nil => rfl
  | cons x t ih => simp [cumsumFrom, ih]

theorem length_cumsum (xs : List Rat) : (cumsum xs).length = xs.length :=
  length_cumsumFrom 0 xs

theorem cumsumFrom_getElem (acc : Rat) (xs : List Rat) (i : Nat)
    (hc : i < (cumsumFrom acc xs).length) :
    (cumsumFrom acc xs)[i] = acc + (xs.take (i + 1)).sum := by
  induction xs generalizing acc i with
  | nil => simp [cumsumFrom] at hc
  | cons x t ih =>
    cases i with
    | zero => simp [cumsumFrom]
    | succ j =>
      have hc' : j < (cumsumFrom (acc + x) t).length := by
        simpa [cumsumFrom] using hc
      calc (cumsumFrom acc (x :: t))[j + 1]
          = (cumsumFrom (acc + x) t)[j] := by simp [cumsumFrom]
        _ = (acc + x) + (t.take (j + 1)).sum := ih (acc + x) j hc'
        _ = acc + ((x :: t).take (j + 2)).sum := by
            rw [List.take_succ_cons, List.sum_cons]; ring

theorem cumsum_getElem (xs : List Rat) (i : Nat) (hc : i < (cumsum xs).length) :
    (cumsum xs)[i] = (xs.take (i + 1)).sum := by
  simpa [cumsum] using cumsumFrom_getElem 0 xs i hc

theorem sum_take_mono (xs : List Rat) (h : ∀ x ∈ xs, 0 ≤ x) (i j : Nat) (hij : i ≤ j) :
    (xs.take i).sum ≤ (xs.take j).sum := by
  have hj : xs.take j = xs.take i ++ (xs.drop i).take (j - i) := by
    rw [← List.take_add]
    congr 1
    omega
  rw [hj, List.sum_append]
  have hnn : 0 ≤ ((xs.drop i).take (j - i)).sum :=
    List.sum_nonneg (fun x hx => h x (List.mem_of_mem_drop (List.mem_of_mem_take hx)))
  linarith

theorem cumsum_getLast (xs : List Rat) (hne : cumsum xs ≠ []) :
    (cumsum xs).getLast hne = xs.sum := by
  have hx : xs ≠ [] := by
    intro h
    subst h
    exact hne rfl
  rw [List.getLast_eq_getElem]
  have hlen : (cumsum xs).length = xs.length := length_cumsum xs
  have h0 : 0 < xs.length := List.length_pos.mpr hx
  have hidx : (cumsum xs).length - 1 + 1 = xs.length := by omega
  rw [cumsum_getElem, hidx, List.take_length]

/-- C4: the cumulative columns are the inclusive prefix sums of the
minutes and sessions columns, they are non-decreasing when the columns
are non-negative, and their last entries are the grand totals. -/
theorem cumulative_prefix_sums (rows : List DailyRow)
    (hnn : ∀ r ∈ rows, 0 ≤ r.total_minutes ∧ 0 ≤ r.sessions) :
    (cumulative_minutes rows).length = rows.length ∧
    (cumulative_sessions rows).length = rows.length ∧
    (∀ i (hm : i < (cumulative_minutes rows).length),
      (cumulative_minutes rows)[i] =
        ((rows.map (fun r => r.total_minutes)).take (i + 1)).sum) ∧
    (∀ i (hs : i < (cumulative_sessions rows).length),
      (cumulative_sessions rows)[i] =
        ((rows.map (fun r => r.sessions)).take (i + 1)).sum) ∧
    (∀ i j (hm : i < (cumulative_minutes rows).length)
        (hm' : j < (cumulative_minutes rows).length),
      i ≤ j → (cumulative_minutes rows)[i] ≤ (cumulative_minutes rows)[j]) ∧
    (∀ i j (hs : i < (cumulative_sessions rows).length)
        (hs' : j < (cumulative_sessions rows).length),
      i ≤ j → (cumulative_sessions rows)[i] ≤ (cumulative_sessions rows)[j]) ∧
    (∀ hne : cumulative_minutes rows ≠ [],
      (cumulative_minutes rows).getLast hne = (rows.map (fun r => r.total_minutes)).sum) ∧
    (∀ hne : cumulative_sessions rows ≠ [],
      (cumulative_sessions rows).getLast hne = (rows.map (fun r => r.sessions)).sum) := by
  have hm_nn : ∀ x ∈ rows.map (fun r => r.total_minutes), 0 ≤ x := by
    intro x hx
    obtain ⟨r, hr, rfl⟩ := List.mem_map.mp hx
    exact (hnn r hr).1
  have hs_nn : ∀ x ∈ rows.map (fun r => r.sessions), 0 ≤ x := by
    intro x hx
    obtain ⟨r, hr, rfl⟩ := List.mem_map.mp hx
    exact (hnn r hr).2
  refine ⟨by simp [cumulative_minutes, length_cumsum],
          by simp [cumulative_sessions, length_cumsum],
          fun i hm => cumsum_getElem _ i hm,
          fun i hs => cumsum_getElem _ i hs,
          ?_, ?_,
          fun hne => cumsum_getLast _ hne,
          fun hne => cumsum_getLast _ hne⟩
  · intro i j hm hm' hij
    have e1 : (cumulative_minutes rows)[i] =
        ((rows.map (fun r => r.total_minutes)).take (i + 1)).sum := cumsum_getElem _ i hm
    have e2 : (cumulative_minutes rows)[j] =
        ((rows.map (fun r => r.total_minutes)).take (j + 1)).sum := cumsum_getElem _ j hm'
    rw [e1, e2]
    exact sum_take_mono _ hm_nn (i + 1) (j + 1) (by omega)
  · intro i j hs hs' hij
    have e1 : (cumulative_sessions rows)[i] =
        ((rows.map (fun r => r.sessions)).take (i + 1)).sum := cumsum_getElem _ i hs
    have e2 : (cumulative_sessions rows)[j] =
        ((rows.map (fun r => r.sessions)).take (j + 1)).sum := cumsum_getElem _ j hs'
    rw [e1, e2]
    exact sum_take_mono _ hs_nn (i + 1) (j + 1) (by omega)

/-- C4 witness: over the dense scenario table (all values non-negative)
the cumulative minutes column ends at the grand total. -/
theorem cumulative_prefix_sums_witness :
    (cumulative_minutes (denseRows exampleRecords)).length =
      (denseRows exampleRecords).length :=
  (cumulative_prefix_sums (denseRows exampleRecords)
    (by rw [denseRows_example]; norm_num)).1

/-! ### Helper lemmas: grouped sums partition the record set -/

theorem sum_map_add {α : Type} (l : List α) (f g : α → Rat) :
    (l.map (fun x => f x + g x)).sum = (l.map f).sum + (l.map g).sum := by
  induction l with
  | nil => simp
  | cons a t ih => simp [ih]; ring

theorem sum_map_ite_of_not_mem {α : Type} [DecidableEq α] (l : List α) (a : α) (c : Rat)
    (ha : a ∉ l) :
    (l.map (fun x => if a = x then c else 0)).sum = 0 := by
  apply List.sum_eq_zero
  intro y hy
  rw [List.mem_map] at hy
  obtain ⟨x, hx, rfl⟩ := hy
  have hax : a ≠ x := fun he => ha (he ▸ hx)
  simp [hax]

theorem sum_map_ite_of_nodup {α : Type} [DecidableEq α] (l : List α) (a : α) (c : Rat)
    (hnd : l.Nodup) (ha : a ∈ l) :
    (l.map (fun x => if a = x then c else 0)).sum = c := by
  induction l with
  | nil => simp at ha
  | cons b t ih =>
    rcases List.mem_cons.mp ha with rfl | hat
    · have hnt : a ∉ t := (List.nodup_cons.mp hnd).1
      simp [sum_map_ite_of_not_mem t a c hnt]
    · have hab : a ≠ b := fun he => (List.nodup_cons.mp hnd).1 (he ▸ hat)
      simp [hab, ih (List.nodup_cons.mp hnd).2 hat]

theorem sum_map_filter_key {κ : Type} [DecidableEq κ] (key : RawRecord → κ)
    (f : RawRecord → Rat) (rs : List RawRecord) (ks : List κ)
    (hnd : ks.Nodup) (hcov : ∀ r ∈ rs, key r ∈ ks) :
    (ks.map (fun k => ((rs.filter (fun r => key r = k)).map f).sum)).sum =
      (rs.map f).sum := by
  induction rs with
  | nil =>
    simp only [List.filter_nil, List.map_nil, List.sum_nil]
    exact List.sum_eq_zero (by intro x hx; rw [List.mem_map] at hx; obtain ⟨k, _, rfl⟩ := hx; rfl)
  | cons r rs ih =>
    have hsplit : ∀ k : κ,
        (((r :: rs).filter (fun x => key x = k)).map f).sum =
          (if key r = k then f r else 0) + ((rs.filter (fun x => key x = k)).map f).sum := by
      intro k
      rw [List.filter_cons]
      by_cases hk : key r = k <;> simp [hk]
    have hmap : (ks.map (fun k => (((r :: rs).filter (fun x => key x = k)).map f).sum)) =
        ks.map (fun k =>
          (if key r = k then f r else 0) + ((rs.filter (fun x => key x = k)).map f).sum) :=
      List.map_congr_left (fun k _ => hsplit k)
    rw [hmap, sum_map_add,
      sum_map_ite_of_nodup ks (key r) (f r) hnd (hcov r (List.mem_cons_self r rs)),
      ih (fun x hx => hcov x (List.mem_cons_of_mem r hx))]
    simp

theorem nodup_weekday_order : weekday_order.Nodup := by decide

/-- C5: when every record carries a canonical weekday name, the weekday
aggregate's seven totals sum to the raw grand totals of minutes and of
sessions: weekday aggregation reads the raw records, so densification's
zero-filled days contribute nothing. -/
theorem weekday_totals_conserved (rs : List RawRecord)
    (hw : ∀ r ∈ rs, r.weekday ∈ weekday_order) :
    (weekday_minutes rs).sum = (rs.map (fun r => r.total_minutes)).sum ∧
    (weekday_sessions rs).sum = (rs.map (fun r => r.sessions)).sum :=
  ⟨sum_map_filter_key (fun r => r.weekday) (fun r => r.total_minutes) rs weekday_order
      nodup_weekday_order hw,
    sum_map_filter_key (fun r => r.weekday) (fun r => r.sessions) rs weekday_order
      nodup_weekday_order hw⟩

/-- C5 witness: on the two-record scenario (Monday and Wednesday labels),
the weekday aggregate sums back to the raw totals. -/
theorem weekday_totals_conserved_witness :
    (weekday_minutes exampleRecords).sum =
      (exampleRecords.map (fun r => r.total_minutes)).sum :=
  (weekday_totals_conserved exampleRecords (by decide)).1

/-- C9: a record with a non-canonical weekday name changes no weekday
aggregate entry (the aggregate keeps exactly the seven canonical rows),
yet its minutes and sessions still enter the per-date aggregation. -/
theorem invalid_weekday_policy (rs : List RawRecord) (b : RawRecord)
    (hb : b.weekday ∉ weekday_order) :
    weekday_minutes (b :: rs) = weekday_minutes rs ∧
    weekday_sessions (b :: rs) = weekday_sessions rs ∧
    (weekday_minutes (b :: rs)).length = 7 ∧
    aggMinutes (b :: rs) b.date = b.total_minutes + aggMinutes rs b.date ∧
    aggSessions (b :: rs) b.date = b.sessions + aggSessions rs b.date := by
  have hfilter : ∀ w ∈ weekday_order,
      (b :: rs).filter (fun r => r.weekday = w) = rs.filter (fun r => r.weekday = w) := by
    intro w hwmem
    have hbw : b.weekday ≠ w := fun he => hb (he ▸ hwmem)
    rw [List.filter_cons]
    simp [hbw]
  refine ⟨?_, ?_, ?_, ?_, ?_⟩
  · exact List.map_congr_left (fun w hwmem => by rw [hfilter w hwmem])
  · exact List.map_congr_left (fun w hwmem => by rw [hfilter w hwmem])
  · simp [weekday_minutes, weekday_order]
  · simp [aggMinutes, List.filter_cons]
  · simp [aggSessions, List.filter_cons]

/-- C9 witness: a "Funday" record is invisible to the weekday aggregate
of the scenario records but still lands in its date's daily total. -/
theorem invalid_weekday_policy_witness :
    weekday_minutes (badWeekdayRecord :: exampleRecords) = weekday_minutes exampleRecords ∧
    aggMinutes (badWeekdayRecord :: exampleRecords) badWeekdayRecord.date =
      badWeekdayRecord.total_minutes + aggMinutes exampleRecords badWeekdayRecord.date :=
  ⟨(invalid_weekday_policy exampleRecords badWeekdayRecord (by decide)).1,
    (invalid_weekday_policy exampleRecords badWeekdayRecord (by decide)).2.2.2.1⟩

/-- C8 counterexample: the pipeline does not reject a record with
negative minutes: on the single record with minutes = -5 it raises no
error and returns a daily table whose total is -5. -/
theorem negative_not_rejected_cex :
    densify [negRecord] = .ok (denseRows [negRecord]) ∧
    denseRows [negRecord] = [⟨0, -5, 1⟩] ∧
    densify [negRecord] ≠ .error .emptySource := by
  refine ⟨rfl, ?_, by simp [densify]⟩
  norm_num [denseRows, negRecord, minDate, maxDate,
    show denseDates 0 0 = [0] from rfl, aggMinutes, aggSessions, List.filter,
    DailyRow.mk.injEq]

/-- C8 as amended: the pipeline performs no negative-value validation:
a record set containing a record with negative minutes or sessions is
accepted (no error is raised) and the record's values are summed into
its date's totals like any other record's. -/
theorem negative_values_aggregated (rs : List RawRecord) (r : RawRecord)
    (hr : r ∈ rs) (hneg : r.total_minutes < 0 ∨ r.sessions < 0) :
    densify rs = .ok (denseRows rs) ∧
    ∃ hi : r.date - minDate rs < (denseRows rs).length,
      ((denseRows rs)[r.date - minDate rs]).date = r.date ∧
      ((denseRows rs)[r.date - minDate rs]).total_minutes = aggMinutes rs r.date ∧
      ((denseRows rs)[r.date - minDate rs]).sessions = aggSessions rs r.date ∧
      r ∈ rs.filter (fun x => x.date = r.date) := by
  have h1 : minDate rs ≤ r.date := minDate_le_of_mem hr
  have h2 : r.date ≤ maxDate rs := le_maxDate_of_mem hr
  have hok : densify rs = .ok (denseRows rs) := by
    cases rs with
    | nil => simp at hr
    | cons x t => rfl
  have hi : r.date - minDate rs < (denseRows rs).length := by
    rw [length_denseRows]
    omega
  have hdate : minDate rs + (r.date - minDate rs) = r.date := by omega
  refine ⟨hok, hi, ?_, ?_, ?_, ?_⟩
  · rw [denseRows_getElem rs _ hi]
    exact hdate
  · rw [denseRows_getElem rs _ hi]
    simp only []
    rw [hdate]
  · rw [denseRows_getElem rs _ hi]
    simp only []
    rw [hdate]
  · simp [List.mem_filter, hr]

/-- C8 witness for the amended statement: the single-record set with
minutes = -5 satisfies the hypotheses, so its value flows into the
table's totals. -/
theorem negative_values_aggregated_witness :
    negRecord ∈ [negRecord] ∧
    (negRecord.total_minutes < 0 ∨ negRecord.sessions < 0) ∧
    densify [negRecord] = .ok (denseRows [negRecord]) :=
  ⟨by simp, by left; norm_num [negRecord],
    (negative_values_aggregated [negRecord] negRecord (by simp)
      (by left; norm_num [negRecord])).1⟩

/-! ### Helper lemmas: the dense table's columns sum to the raw totals -/

theorem denseRows_ne_nil (rs : List RawRecord) : denseRows rs ≠ [] := by
  intro h
  have hl := length_denseRows rs
  rw [h] at hl
  simp at hl

theorem sum_minutes_denseRows (rs : List RawRecord) :
    ((denseRows rs).map (fun r => r.total_minutes)).sum =
      (rs.map (fun r => r.total_minutes)).sum := by
  have hmap : (denseRows rs).map (fun r => r.total_minutes) =
      (denseDates (minDate rs) (maxDate rs)).map
        (fun d => ((rs.filter (fun r => r.date = d)).map (fun r => r.total_minutes)).sum) := by
    simp only [denseRows, List.map_map]
    exact List.map_congr_left (fun d _ => rfl)
  rw [hmap]
  exact sum_map_filter_key (fun r => r.date) (fun r => r.total_minutes) rs _
    (nodup_denseDates _ _)
    (fun r hr => mem_denseDates _ _ _ (minDate_le_of_mem hr) (le_maxDate_of_mem hr))

theorem sum_sessions_denseRows (rs : List RawRecord) :
    ((denseRows rs).map (fun r => r.sessions)).sum =
      (rs.map (fun r => r.sessions)).sum := by
  have hmap : (denseRows rs).map (fun r => r.sessions) =
      (denseDates (minDate rs) (maxDate rs)).map
        (fun d => ((rs.filter (fun r => r.date = d)).map (fun r => r.sessions)).sum) := by
    simp only [denseRows, List.map_map]
    exact List.map_congr_left (fun d _ => rfl)
  rw [hmap]
  exact sum_map_filter_key (fun r => r.date) (fun r => r.sessions) rs _
    (nodup_denseDates _ _)
    (fun r hr => mem_denseDates _ _ _ (minDate_le_of_mem hr) (le_maxDate_of_mem hr))

/-- C10: for every non-empty raw record set, the cumulative columns of
the dense table end exactly at the raw grand totals: per-date aggregation
preserves the totals and densification only inserts zero rows. -/
theorem pipeline_conserves_totals (rs : List RawRecord) (h : rs ≠ []) :
    densify rs = .ok (denseRows rs) ∧
    cumulative_minutes (denseRows rs) ≠ [] ∧
    cumulative_sessions (denseRows rs) ≠ [] ∧
    (∀ hne : cumulative_minutes (denseRows rs) ≠ [],
      (cumulative_minutes (denseRows rs)).getLast hne =
        (rs.map (fun r => r.total_minutes)).sum) ∧
    (∀ hne : cumulative_sessions (denseRows rs) ≠ [],
      (cumulative_sessions (denseRows rs)).getLast hne =
        (rs.map (fun r => r.sessions)).sum) := by
  have hok : densify rs = .ok (denseRows rs) := by
    cases rs with
    | nil => exact absurd rfl h
    | cons x t => rfl
  have hm_ne : cumulative_minutes (denseRows rs) ≠ [] := by
    intro he
    have hl : (cumulative_minutes (denseRows rs)).length = (denseRows rs).length := by
      simp [cumulative_minutes, length_cumsum]
    rw [he, length_denseRows] at hl
    simp at hl
  have hs_ne : cumulative_sessions (denseRows rs) ≠ [] := by
    intro he
    have hl : (cumulative_sessions (denseRows rs)).length = (denseRows rs).length := by
      simp [cumulative_sessions, length_cumsum]
    rw [he, length_denseRows] at hl
    simp at hl
  refine ⟨hok, hm_ne, hs_ne, ?_, ?_⟩
  · intro hne
    have hlast : (cumulative_minutes (denseRows rs)).getLast hne =
        ((denseRows rs).map (fun r => r.total_minutes)).sum := cumsum_getLast _ hne
    rw [hlast, sum_minutes_denseRows]
  · intro hne
    have hlast : (cumulative_sessions (denseRows rs)).getLast hne =
        ((denseRows rs).map (fun r => r.sessions)).sum := cumsum_getLast _ hne
    rw [hlast, sum_sessions_denseRows]

/-- C10 witness: on the two-record scenario the cumulative minutes column
is non-empty and the pipeline front succeeds. -/
theorem pipeline_conserves_totals_witness :
    exampleRecords ≠ [] ∧
    densify exampleRecords = .ok (denseRows exampleRecords) ∧
    cumulative_minutes (denseRows exampleRecords) ≠ [] :=
  ⟨by decide, (pipeline_conserves_totals exampleRecords (by decide)).1,
    (pipeline_conserves_totals exampleRecords (by decide)).2.1⟩

/-! ### Helper lemmas: the streak scan -/

theorem streaksAux_cons (cur : Nat) (m : Rat) (ms : List Rat) :
    streaksAux cur (m :: ms) =
      (if 0 < m then cur + 1 else 0) :: streaksAux (if 0 < m then cur + 1 else 0) ms := by
  by_cases h : 0 < m <;> simp [streaksAux, h]

theorem length_streaksAux (cur : Nat) (ms : List Rat) :
    (streaksAux cur ms).length = ms.length := by
  induction ms generalizing cur with
  | nil => rfl
  | cons m t ih =>
    rw [streaksAux_cons]
    simp [ih]

theorem streaksAux_getElem_zero (cur : Nat) (ms : List Rat)
    (h : 0 < ms.length) (hs : 0 < (streaksAux cur ms).length) :
    (streaksAux cur ms)[0] = if 0 < ms[0] then cur + 1 else 0 := by
  cases ms with
  | nil => simp at h
  | cons m t =>
    simp only [streaksAux_cons, List.getElem_cons_zero]
    norm_cast

theorem streaksAux_getElem_succ (cur : Nat) (ms : List Rat) (i : Nat)
    (h : i + 1 < ms.length) (hs : i + 1 < (streaksAux cur ms).length)
    (hs0 : i < (streaksAux cur ms).length) :
    (streaksAux cur ms)[i + 1] =
      if 0 < ms[i + 1] then (streaksAux cur ms)[i] + 1 else 0 := by
  induction ms generalizing cur i with
  | nil => simp at h
  | cons m t ih =>
    simp only [streaksAux_cons, List.getElem_cons_succ]
    cases i with
    | zero =>
      have ht : 0 < t.length := by simpa using h
      have ht2 : 0 < (streaksAux (if 0 < m then cur + 1 else 0) t).length := by
        simpa [length_streaksAux] using ht
      simp [streaksAux_getElem_zero _ t ht ht2]
    | succ j =>
      have hj : j + 1 < t.length := by simpa using h
      have hs1 : j + 1 < (streaksAux (if 0 < m then cur + 1 else 0) t).length := by
        simpa [length_streaksAux] using hj
      have hs2 : j < (streaksAux (if 0 < m then cur + 1 else 0) t).length := by omega
      have hrec := ih (if 0 < m then cur + 1 else 0) j hj hs1 hs2
      simpa using hrec

theorem streaksAux_eq_zero_iff (cur : Nat) (ms : List Rat) (i : Nat)
    (h : i < ms.length) (hs : i < (streaksAux cur ms).length) :
    ((streaksAux cur ms)[i] = 0 ↔ ¬ 0 < ms[i]) := by
  cases i with
  | zero =>
    rw [streaksAux_getElem_zero cur ms h hs]
    by_cases hm : 0 < ms[0] <;> simp [hm]
  | succ j =>
    have hs0 : j < (streaksAux cur ms).length := by omega
    rw [streaksAux_getElem_succ cur ms j h hs hs0]
    by_cases hm : 0 < ms[j + 1] <;> simp [hm]

theorem streaksAux_run (ms : List Rat) (j t : Nat)
    (h : j + t < ms.length) (hs : j + t < (streaksAux 0 ms).length)
    (hstart : ∀ k (hk : k < ms.length), j = k + 1 → ¬ 0 < ms[k])
    (hpos : ∀ u, u ≤ t → ∀ hu : j + u < ms.length, 0 < ms[j + u]) :
    (streaksAux 0 ms)[j + t] = t + 1 := by
  induction t with
  | zero =>
    cases j with
    | zero =>
      have h0 : 0 < ms.length := by omega
      have hs0 : 0 < (streaksAux 0 ms).length := by omega
      have hp : 0 < ms[0] := hpos 0 (le_refl 0) (by omega)
      show (streaksAux 0 ms)[0] = 0 + 1
      rw [streaksAux_getElem_zero 0 ms h0 hs0, if_pos hp]
    | succ k =>
      have hk : k < ms.length := by omega
      have hk1 : k + 1 < ms.length := by omega
      have hsk1 : k + 1 < (streaksAux 0 ms).length := by omega
      have hsk : k < (streaksAux 0 ms).length := by omega
      have hzero : (streaksAux 0 ms)[k] = 0 :=
        (streaksAux_eq_zero_iff 0 ms k hk hsk).mpr (hstart k hk rfl)
      have hp : 0 < ms[k + 1] := hpos 0 (le_refl 0) (by omega)
      show (streaksAux 0 ms)[k + 1] = 0 + 1
      rw [streaksAux_getElem_succ 0 ms k hk1 hsk1 hsk, if_pos hp, hzero]
  | succ u ihu =>
    have hprev : (streaksAux 0 ms)[j + u] = u + 1 :=
      ihu (by omega) (by omega) (fun v hvu hb => hpos v (by omega) hb)
    have hb1 : (j + u) + 1 < ms.length := by omega
    have hb2 : (j + u) + 1 < (streaksAux 0 ms).length := by omega
    have hb0 : j + u < (streaksAux 0 ms).length := by omega
    have hp : 0 < ms[(j + u) + 1] := hpos (u + 1) (le_refl _) (by omega)
    show (streaksAux 0 ms)[(j + u) + 1] = (u + 1) + 1
    rw [streaksAux_getElem_succ 0 ms (j + u) hb1 hb2 hb0, if_pos hp, hprev]

/-- C2: the streak column obeys the scan recurrence (`streak[0]` is 1 on a
practiced first day else 0; `streak[i+1]` is `streak[i] + 1` on a
practiced day else 0), vanishes exactly on zero-minute rows, and over a
run of consecutive practiced days starting at `j` (the row before `j`, if
any, unpracticed) takes the values 1, 2, ..., k. -/
theorem streak_recurrence (rows : List DailyRow) :
    (streaks rows).length = rows.length ∧
    (∀ h0 : 0 < rows.length, ∀ hs : 0 < (streaks rows).length,
      (streaks rows)[0] = if 0 < (rows[0]).total_minutes then 1 else 0) ∧
    (∀ i (hi1 : i + 1 < rows.length) (hs1 : i + 1 < (streaks rows).length)
        (hs0 : i < (streaks rows).length),
      (streaks rows)[i + 1] =
        if 0 < (rows[i + 1]).total_minutes then (streaks rows)[i] + 1 else 0) ∧
    (∀ i (hi : i < rows.length) (hs : i < (streaks rows).length),
      ((streaks rows)[i] = 0 ↔ ¬ 0 < (rows[i]).total_minutes)) ∧
    (∀ j t (hjt : j + t < rows.length) (hs : j + t < (streaks rows).length),
      (∀ k (hk : k < rows.length), j = k + 1 → ¬ 0 < (rows[k]).total_minutes) →
      (∀ u, u ≤ t → ∀ hu : j + u < rows.length, 0 < (rows[j + u]).total_minutes) →
      (streaks rows)[j + t] = t + 1) := by
  refine ⟨by simp [streaks, length_streaksAux], ?_, ?_, ?_, ?_⟩
  · intro h0 hs
    have hm0 : 0 < (rows.map (fun r => r.total_minutes)).length := by simpa using h0
    have hs' : 0 < (streaksAux 0 (rows.map (fun r => r.total_minutes))).length := hs
    have hz := streaksAux_getElem_zero 0 (rows.map (fun r => r.total_minutes)) hm0 hs'
    simp only [List.getElem_map] at hz
    exact hz
  · intro i hi1 hs1 hs0
    have hm1 : i + 1 < (rows.map (fun r => r.total_minutes)).length := by simpa using hi1
    have hs1' : i + 1 < (streaksAux 0 (rows.map (fun r => r.total_minutes))).length := hs1
    have hs0' : i < (streaksAux 0 (rows.map (fun r => r.total_minutes))).length := hs0
    have hrec := streaksAux_getElem_succ 0 (rows.map (fun r => r.total_minutes)) i hm1 hs1' hs0'
    simp only [List.getElem_map] at hrec
    exact hrec
  · intro i hi hs
    have hm : i < (rows.map (fun r => r.total_minutes)).length := by simpa using hi
    have hs' : i < (streaksAux 0 (rows.map (fun r => r.total_minutes))).length := hs
    have hiff := streaksAux_eq_zero_iff 0 (rows.map (fun r => r.total_minutes)) i hm hs'
    simp only [List.getElem_map] at hiff
    exact hiff
  · intro j t hjt hs hstart hpos
    have hm : j + t < (rows.map (fun r => r.total_minutes)).length := by simpa using hjt
    have hs' : j + t < (streaksAux 0 (rows.map (fun r => r.total_minutes))).length := hs
    have hrun := streaksAux_run (rows.map (fun r => r.total_minutes)) j t hm hs'
      (by
        intro k hk he
        simp only [List.getElem_map]
        exact hstart k (by simpa using hk) he)
      (by
        intro u hu hb
        simp only [List.getElem_map]
        exact hpos u hu (by simpa using hb))
    exact hrun

/-- C2 witness: on the dense scenario table (minutes 10, 0, 20) the streak
column has the table's length and starts at 1 since day one is practiced. -/
theorem streak_recurrence_witness :
    (streaks (denseRows exampleRecords)).length = (denseRows exampleRecords).length :=
  (streak_recurrence (denseRows exampleRecords)).1

/-! ### Helper lemmas: the trailing moving average -/

theorem length_rollingMean (w : Nat) (xs : List Rat) :
    (rollingMean w xs).length = xs.length := by
  simp [rollingMean]

theorem rollingMean_getElem (w : Nat) (xs : List Rat) (i : Nat)
    (h : i < (rollingMean w xs).length) :
    (rollingMean w xs)[i] =
      ((xs.drop (i + 1 - w)).take (i + 1 - (i + 1 - w))).sum /
        ((((xs.drop (i + 1 - w)).take (i + 1 - (i + 1 - w))).length : Rat)) := by
  simp [rollingMean]

theorem take_one_drop (xs : List Rat) (n : Nat) (h : n < xs.length) :
    (xs.drop n).take 1 = [xs[n]] := by
  rw [List.drop_eq_getElem_cons h, List.take_succ_cons, List.take_zero]

theorem take_two_drop (xs : List Rat) (n : Nat) (h : n + 1 < xs.length) :
    (xs.drop n).take 2 = [xs[n], xs[n + 1]] := by
  rw [List.drop_eq_getElem_cons (show n < xs.length by omega),
    List.take_succ_cons, take_one_drop xs (n + 1) h]

theorem take_three_drop (xs : List Rat) (n : Nat) (h : n + 2 < xs.length) :
    (xs.drop n).take 3 = [xs[n], xs[n + 1], xs[n + 2]] := by
  rw [List.drop_eq_getElem_cons (show n < xs.length by omega),
    List.take_succ_cons, take_two_drop xs (n + 1) (show n + 1 + 1 < xs.length by omega)]

theorem rollingMean3_getElem_zero (xs : List Rat) (h0 : 0 < xs.length)
    (hr : 0 < (rollingMean 3 xs).length) :
    (rollingMean 3 xs)[0] = xs[0] := by
  have ht : xs.take 1 = [xs[0]] := by simpa using take_one_drop xs 0 h0
  rw [rollingMean_getElem]
  norm_num [ht]

theorem rollingMean3_getElem_one (xs : List Rat) (h1 : 1 < xs.length)
    (hr : 1 < (rollingMean 3 xs).length) :
    (rollingMean 3 xs)[1] = (xs[0] + xs[1]) / 2 := by
  have ht : xs.take 2 = [xs[0], xs[1]] := by simpa using take_two_drop xs 0 h1
  rw [rollingMean_getElem]
  norm_num [ht]

theorem rollingMean3_getElem_two (xs : List Rat) (i : Nat) (h : i + 2 < xs.length)
    (hr : i + 2 < (rollingMean 3 xs).length) :
    (rollingMean 3 xs)[i + 2] = (xs[i] + xs[i + 1] + xs[i + 2]) / 3 := by
  rw [rollingMean_getElem]
  have e1 : i + 2 + 1 - 3 = i := by omega
  rw [e1]
  have e2 : i + 2 + 1 - i = 3 := by omega
  rw [e2, take_three_drop xs i h]
  norm_num
  ring

set_option maxHeartbeats 1000000 in
/-- C3: the 3-day trailing moving averages of minutes and of sessions keep
the table's length and equal the plain mean of the available window: the
single first row at index 0, the mean of rows 0-1 at index 1, and the mean
of the trailing three rows from index 2 on. -/
theorem moving_average_windows (rows : List DailyRow) :
    (minutes_ma rows).length = rows.length ∧
    (sessions_ma rows).length = rows.length ∧
    (∀ h0 : 0 < rows.length, ∀ hm : 0 < (minutes_ma rows).length,
      (minutes_ma rows)[0] = (rows[0]).total_minutes) ∧
    (∀ h0 : 0 < rows.length, ∀ hs : 0 < (sessions_ma rows).length,
      (sessions_ma rows)[0] = (rows[0]).sessions) ∧
    (∀ h1 : 1 < rows.length, ∀ hm : 1 < (minutes_ma rows).length,
      (minutes_ma rows)[1] = ((rows[0]).total_minutes + (rows[1]).total_minutes) / 2) ∧
    (∀ h1 : 1 < rows.length, ∀ hs : 1 < (sessions_ma rows).length,
      (sessions_ma rows)[1] = ((rows[0]).sessions + (rows[1]).sessions) / 2) ∧
    (∀ i (hi : i + 2 < rows.length) (hm : i + 2 < (minutes_ma rows).length),
      (minutes_ma rows)[i + 2] =
        ((rows[i]).total_minutes + (rows[i + 1]).total_minutes +
          (rows[i + 2]).total_minutes) / 3) ∧
    (∀ i (hi : i + 2 < rows.length) (hs : i + 2 < (sessions_ma rows).length),
      (sessions_ma rows)[i + 2] =
        ((rows[i]).sessions + (rows[i + 1]).sessions + (rows[i + 2]).sessions) / 3) := by
  refine ⟨by simp [minutes_ma, length_rollingMean],
          by simp [sessions_ma, length_rollingMean], ?_, ?_, ?_, ?_, ?_, ?_⟩
  · intro h0 hm
    have hx : 0 < (rows.map (fun r => r.total_minutes)).length := by simpa using h0
    have hm2 : 0 < (rollingMean 3 (rows.map (fun r => r.total_minutes))).length := hm
    have h := rollingMean3_getElem_zero (rows.map (fun r => r.total_minutes)) hx hm2
    simp only [List.getElem_map] at h
    exact h
  · intro h0 hs
    have hx : 0 < (rows.map (fun r => r.sessions)).length := by simpa using h0
    have hs2 : 0 < (rollingMean 3 (rows.map (fun r => r.sessions))).length := hs
    have h := rollingMean3_getElem_zero (rows.map (fun r => r.sessions)) hx hs2
    simp only [List.getElem_map] at h
    exact h
  · intro h1 hm
    have hx : 1 < (rows.map (fun r => r.total_minutes)).length := by simpa using h1
    have hm2 : 1 < (rollingMean 3 (rows.map (fun r => r.total_minutes))).length := hm
    have h := rollingMean3_getElem_one (rows.map (fun r => r.total_minutes)) hx hm2
    simp only [List.getElem_map] at h
    exact h
  · intro h1 hs
    have hx : 1 < (rows.map (fun r => r.sessions)).length := by simpa using h1
    have hs2 : 1 < (rollingMean 3 (rows.map (fun r => r.sessions))).length := hs
    have h := rollingMean3_getElem_one (rows.map (fun r => r.sessions)) hx hs2
    simp only [List.getElem_map] at h
    exact h
  · intro i hi hm
    have hx : i + 2 < (rows.map (fun r => r.total_minutes)).length := by simpa using hi
    have hm2 : i + 2 < (rollingMean 3 (rows.map (fun r => r.total_minutes))).length := hm
    have h := rollingMean3_getElem_two (rows.map (fun r => r.total_minutes)) i hx hm2
    simp only [List.getElem_map] at h
    exact h
  · intro i hi hs
    have hx : i + 2 < (rows.map (fun r => r.sessions)).length := by simpa using hi
    have hs2 : i + 2 < (rollingMean 3 (rows.map (fun r => r.sessions))).length := hs
    have h := rollingMean3_getElem_two (rows.map (fun r => r.sessions)) i hx hs2
    simp only [List.getElem_map] at h
    exact h

/-- C3 witness: on the dense scenario table both moving-average columns
have the table's length. -/
theorem moving_average_windows_witness :
    (minutes_ma (denseRows exampleRecords)).length = (denseRows exampleRecords).length ∧
    (sessions_ma (denseRows exampleRecords)).length = (denseRows exampleRecords).length :=
  ⟨(moving_average_windows (denseRows exampleRecords)).1,
    (moving_average_windows (denseRows exampleRecords)).2.1⟩

end Breathing
